import Mathlib

/-!
# Shallow embedding of `src/Deck.mts` (the `magician` deck library)

A `Deck<T>` wraps a private JavaScript array `#cards`; index `0` is the
bottom of the deck and the last index is the top.  We embed `#cards` as a
`List α` and each method as a function from the cards (and its other
arguments) to its result, paired with the cards after the call when the
method can mutate.  JavaScript `number` counts are embedded as `Int` (the
methods only compare them with `0` and use them as lengths / slice
arguments), `null` as `none`, and a thrown `Error` as `Except.error` of the
message string.
-/

namespace Magician

/-- `draw()`: `if (this.#cards.length === 0) return null; return this.#cards.pop();`
Returns the popped top card (the last element) and the remaining cards. -/
def draw (cards : List α) : Option α × List α :=
  if cards.length = 0 then (none, cards)
  else (cards.getLast?, cards.dropLast)

/-- The `count`-iteration loop of `drawMany`:
`Array.from({ length: count }, () => this.draw())`, threading the deck
state through the successive `draw()` calls.  Returns the raw array of
`draw()` results (which may contain `null`s) and the final cards. -/
def drawManyGo (cards : List α) : Nat → List (Option α) × List α
  | 0 => ([], cards)
  | n + 1 =>
    let (v, c₁) := draw cards
    let (vs, c₂) := drawManyGo c₁ n
    (v :: vs, c₂)

/-- `drawMany(count)`: rejects negative counts, otherwise draws `count`
times and filters out the `null`s (`.filter((c) => c !== null)`). -/
def drawMany (cards : List α) (count : Int) : Except String (List α × List α) :=
  if count < 0 then .error "Count must be non-negative"
  else
    let (vs, c₁) := drawManyGo cards count.toNat
    .ok (vs.filterMap id, c₁)

/-- `peek()`: `if (this.#cards.length === 0) return null; return this.#cards.at(-1);` -/
def peek (cards : List α) : Option α :=
  if cards.length = 0 then none else cards.getLast?

/-- JavaScript `array.slice(start)` (one-argument form): a negative `start`
is clamped to `max (length + start) 0`, a non-negative one to
`min start length`; the result is the suffix from that position.  Note that
JavaScript `-0 == 0`, so `slice(-0)` behaves as `slice(0)` — which the
integer argument `-(0 : Int) = 0` reproduces exactly. -/
def jsSliceFrom (cards : List α) (start : Int) : List α :=
  let len : Int := cards.length
  let begin_ : Int := if start < 0 then max (len + start) 0 else min start len
  cards.drop begin_.toNat

/-- `peekMany(count)`: rejects negative counts, otherwise returns
`this.#cards.slice(-count)` without touching the cards. -/
def peekMany (cards : List α) (count : Int) : Except String (List α) :=
  if count < 0 then .error "Count must be non-negative"
  else .ok (jsSliceFrom cards (-count))

/-- `toList()`: `[...this.#cards]` — a value-equal copy of the cards. -/
def toList (cards : List α) : List α := cards

/-- `size()`: `this.#cards.length`. -/
def size (cards : List α) : Nat := cards.length

/-- `isEmpty()`: `this.#cards.length === 0`. -/
def isEmpty (cards : List α) : Bool := cards.length = 0

section DrawManyLemmas

/-- `pop` on a non-empty array returns the last element and drops it. -/
theorem draw_concat (S : List α) (a : α) : draw (S ++ [a]) = (some a, S) := by
  simp [draw]

theorem draw_nil : draw ([] : List α) = (none, []) := by
  simp [draw]

theorem drawManyGo_nil (k : Nat) :
    drawManyGo ([] : List α) k = (List.replicate k none, []) := by
  induction k with
  | zero => rfl
  | succ n ih => simp [drawManyGo, draw_nil, ih, List.replicate_succ]

/-- Closed form of the raw draw loop: the first `min k |S|` results are the
elements of `S` from the top down, the rest are `null`s, and the cards that
remain are the bottom `|S| - k` ones. -/
theorem drawManyGo_eq (k : Nat) (S : List α) :
    drawManyGo S k =
      ((S.reverse.take k).map some ++ List.replicate (k - S.length) none,
        S.take (S.length - k)) := by
  induction k generalizing S with
  | zero => simp [drawManyGo]
  | succ n ih =>
    rcases List.eq_nil_or_concat S with rfl | ⟨S', a, rfl⟩
    · simp [drawManyGo_nil]
    · rw [List.concat_eq_append]
      simp only [drawManyGo, draw_concat, ih S']
      rw [Prod.ext_iff]
      constructor
      · simp [List.take_succ_cons, List.replicate]
      · simp only [List.length_append, List.length_cons, List.length_nil]
        rw [List.take_append_of_le_length (by omega)]
        congr 1
        omega

/-- `drawMany` on a non-negative count: the hand is the top `min count |S|`
cards (topmost first) and the deck keeps its bottom `|S| - count` cards. -/
theorem drawMany_eq (S : List α) (count : Int) (h : 0 ≤ count) :
    drawMany S count = .ok (S.reverse.take count.toNat,
      S.take (S.length - count.toNat)) := by
  have hneg : ¬ count < 0 := by omega
  simp only [drawMany, hneg, if_false, drawManyGo_eq]
  congr 1
  rw [Prod.ext_iff]
  constructor
  · simp [List.filterMap_append, List.filterMap_replicate, ← List.map_reverse,
      ← List.map_take, List.filterMap_map, List.filterMap_some]
  · rfl

end DrawManyLemmas

/-- C5: for every deck `S` and non-negative integer `n`, `drawMany(n)`
returns the last `min n |S|` elements of `S` in reverse order (topmost
first) and leaves the deck equal to `S` with those elements removed; when
`n` exceeds `|S|` it returns all of `S` reversed and empties the deck
without error; `drawMany(0)` returns an empty result and leaves the deck
unchanged. -/
theorem drawMany_draws_top_cards (S : List α) (n : Int) (h : 0 ≤ n) :
    drawMany S n =
      .ok ((S.drop (S.length - min n.toNat S.length)).reverse,
        S.take (S.length - n.toNat)) ∧
    (S.length ≤ n → drawMany S n = .ok (S.reverse, [])) ∧
    drawMany S 0 = .ok ([], S) := by
  refine ⟨?_, ?_, ?_⟩
  · rw [drawMany_eq S n h, List.take_reverse,
      show S.length - n.toNat = S.length - min n.toNat S.length from by omega]
  · intro hn
    rw [drawMany_eq S n h, List.take_reverse,
      show S.length - n.toNat = 0 from by omega]
    simp
  · rw [drawMany_eq S 0 le_rfl]
    simp

/-- Witness for C5 at `S = [1,2,3,4,5]`, `n = 2`. -/
theorem drawMany_draws_top_cards_witness :
    drawMany [1, 2, 3, 4, 5] (2 : Int) = .ok ([5, 4], [1, 2, 3]) := by
  have h := (drawMany_draws_top_cards [1, 2, 3, 4, 5] 2 (by norm_num)).1
  simpa using h

/-- Counterexample to C1: on the deck `[1, 2]` (with `2` on top),
`peekMany(2)` returns `[1, 2]` while `drawMany(2)` returns `[2, 1]`, and
`peekMany(0)` returns the whole deck `[1, 2]` (because JavaScript
`slice(-0)` is `slice(0)`) while `drawMany(0)` returns `[]`. -/
theorem peekMany_differs_from_drawMany :
    peekMany [1, 2] (2 : Int) = .ok [1, 2] ∧
    drawMany [1, 2] (2 : Int) = .ok ([2, 1], []) ∧
    ([1, 2] : List ℕ) ≠ [2, 1] ∧
    peekMany [1, 2] (0 : Int) = .ok [1, 2] ∧
    drawMany [1, 2] (0 : Int) = .ok ([], [1, 2]) := by
  refine ⟨rfl, rfl, by decide, rfl, rfl⟩

/-- C1 amended: `peekMany` never mutates the deck; for `count ≥ 1` it
returns the same `min count |S|` topmost elements as `drawMany(count)` but
in the opposite (bottom-to-top) order, i.e. the reverse of `drawMany`'s
result; and `peekMany(0)` returns the entire deck contents (JavaScript
`slice(-0)` is `slice(0)`), not the empty result that `drawMany(0)`
returns. -/
theorem peekMany_reverse_of_drawMany (S : List α) (n : Int) (h : 1 ≤ n) :
    peekMany S n = (drawMany S n).map (fun p => p.1.reverse) ∧
    peekMany S 0 = .ok S := by
  constructor
  · rw [drawMany_eq S n (by omega)]
    simp only [Except.map, peekMany, jsSliceFrom]
    have hlt : ¬ n < 0 := by omega
    have hneg : -n < 0 := by omega
    simp only [hlt, if_false, hneg, if_true, List.take_reverse, List.reverse_reverse]
    congr 2
    omega
  · simp [peekMany, jsSliceFrom]

/-- Witness for the amended C1 at `S = [1,2,3,4,5]`, `n = 2`. -/
theorem peekMany_reverse_of_drawMany_witness :
    peekMany [1, 2, 3, 4, 5] (2 : Int) = .ok [4, 5] ∧
    peekMany [1, 2, 3, 4, 5] (0 : Int) = .ok [1, 2, 3, 4, 5] := by
  have h := peekMany_reverse_of_drawMany [1, 2, 3, 4, 5] (2 : Int) (by norm_num)
  exact ⟨by simpa using h.1, h.2⟩

/-- Counterexample to C6: the error raised on a negative count carries the
message `"Count must be non-negative"` (capital `C`), not
`"count must be non-negative"` as the claim states. -/
theorem negative_count_message_differs :
    drawMany ([] : List ℕ) (-1) = .error "Count must be non-negative" ∧
    drawMany ([] : List ℕ) (-1) ≠ .error "count must be non-negative" ∧
    peekMany ([] : List ℕ) (-1) ≠ .error "count must be non-negative" := by
  refine ⟨rfl, ?_, ?_⟩
  · intro hcontra
    have h0 : drawMany ([] : List ℕ) (-1) = .error "Count must be non-negative" := rfl
    rw [h0] at hcontra
    injection hcontra with hmsg
    exact absurd hmsg (by decide)
  · intro hcontra
    have h0 : peekMany ([] : List ℕ) (-1) = .error "Count must be non-negative" := rfl
    rw [h0] at hcontra
    injection hcontra with hmsg
    exact absurd hmsg (by decide)

/-- C6 amended: for every deck `S` and negative count `c`, `drawMany(c)`
and `peekMany(c)` both fail with an error carrying the message
`"Count must be non-negative"` (capital `C`); the check precedes any use of
the cards, so the failing call leaves the deck unchanged. -/
theorem negative_count_rejected (S : List α) (c : Int) (h : c < 0) :
    drawMany S c = .error "Count must be non-negative" ∧
    peekMany S c = .error "Count must be non-negative" := by
  constructor <;> simp [drawMany, peekMany, h]

/-- Witness for the amended C6 at `S = [1,2]`, `c = -3`. -/
theorem negative_count_rejected_witness :
    drawMany [1, 2] (-3 : Int) = .error "Count must be non-negative" ∧
    peekMany [1, 2] (-3 : Int) = .error "Count must be non-negative" :=
  negative_count_rejected [1, 2] (-3) (by norm_num)

/-! ## `shuffle()`

`Math.random()` is modelled as a stream `rs : ℕ → ℚ` of values (every
double it can return is rational); the `k`-th call returns `rs k`.  The
loop body
`const j = Math.floor(Math.random() * (i + 1)); [cards[i], cards[j]] = [cards[j], cards[i]];`
becomes `randToIdx` and `jsSwap`. -/

/-- `Math.floor(r * (i + 1))`. -/
def randToIdx (r : ℚ) (i : Nat) : Int := Int.floor (r * (i + 1))

/-- The destructuring swap `[cards[i], cards[j]] = [cards[j], cards[i]]`.
Both indices are in range on every call the source makes (`j ∈ [0, i]`
because `Math.random() ∈ [0, 1)`); out-of-range indices leave the list
unchanged here. -/
def jsSwap (l : List α) (i j : Nat) : List α :=
  match l.get? i, l.get? j with
  | some a, some b => (l.set i b).set j a
  | _, _ => l

/-- The `for (let i = length - 1; i > 0; i--)` loop of `shuffle()`:
`cards` is the array, `i` the loop index, `k` the number of `Math.random()`
calls made so far.  Returns the final array and the total number of calls. -/
def shuffleLoop (rs : Nat → ℚ) : List α → Nat → Nat → List α × Nat
  | cards, 0, k => (cards, k)
  | cards, i + 1, k =>
      shuffleLoop rs (jsSwap cards (i + 1) (randToIdx (rs k) (i + 1)).toNat) i (k + 1)

/-- `shuffle()`: runs the loop from `i = length - 1` with no random calls
made yet. -/
def shuffle (rs : Nat → ℚ) (cards : List α) : List α × Nat :=
  shuffleLoop rs cards (cards.length - 1) 0

theorem shuffleLoop_count (rs : Nat → ℚ) :
    ∀ (i : Nat) (cards : List α) (k : Nat), (shuffleLoop rs cards i k).2 = k + i := by
  intro i
  induction i with
  | zero => intro cards k; simp [shuffleLoop]
  | succ n ih =>
    intro cards k
    rw [shuffleLoop, ih]
    omega

theorem randToIdx_mem_range (r : ℚ) (i : Nat) (h0 : 0 ≤ r) (h1 : r < 1) :
    0 ≤ randToIdx r i ∧ randToIdx r i ≤ i := by
  constructor
  · exact Int.floor_nonneg.2 (by positivity)
  · have hmul : r * ((i : ℚ) + 1) < 1 * ((i : ℚ) + 1) := by
      apply mul_lt_mul_of_pos_right h1
      positivity
    have hlt : r * ((i : ℚ) + 1) < ((((i : Int) + 1) : Int) : ℚ) := by
      push_cast
      linarith
    have hfl : Int.floor (r * ((i : ℚ) + 1)) < (i : Int) + 1 := Int.floor_lt.2 hlt
    unfold randToIdx
    omega

/-- C7: `shuffle()` is the Fisher–Yates loop — for a deck of length `n` it
consumes exactly `n - 1` random draws (zero for `n ≤ 1`), leaves the order
unchanged when `n ≤ 1`, each drawn index `j = ⌊r·(i+1)⌋` lies in `[0, i]`
for every value `r ∈ [0, 1)` the random source can produce, and each
iteration swaps the elements at positions `i` and `j`. -/
theorem shuffle_fisher_yates (rs : Nat → ℚ) (cards : List α) :
    (shuffle rs cards).2 = cards.length - 1 ∧
    (cards.length ≤ 1 → (shuffle rs cards).1 = cards) ∧
    (∀ (r : ℚ) (i : Nat), 0 ≤ r → r < 1 →
      0 ≤ randToIdx r i ∧ randToIdx r i ≤ i) ∧
    (∀ (c : List α) (i k : Nat), shuffleLoop rs c (i + 1) k =
      shuffleLoop rs (jsSwap c (i + 1) (randToIdx (rs k) (i + 1)).toNat) i (k + 1)) := by
  refine ⟨?_, ?_, fun r i h0 h1 => randToIdx_mem_range r i h0 h1, fun c i k => rfl⟩
  · rw [shuffle, shuffleLoop_count]
    omega
  · intro hlen
    rw [shuffle, show cards.length - 1 = 0 from by omega]
    rfl

/-- Witness for C7: with the constant random stream `1/2`, a 4-card deck
consumes 3 draws, a 1-card deck is unchanged, and `randToIdx (1/2) 3 = 2`. -/
theorem shuffle_fisher_yates_witness :
    (shuffle (fun _ => (1 : ℚ) / 2) [1, 2, 3, 4]).2 = 3 ∧
    (shuffle (fun _ => (1 : ℚ) / 2) [42]).1 = [42] ∧
    0 ≤ randToIdx ((1 : ℚ) / 2) 3 ∧ randToIdx ((1 : ℚ) / 2) 3 ≤ 3 := by
  refine ⟨?_, ?_, ?_⟩
  · have h := (shuffle_fisher_yates (fun _ => (1 : ℚ) / 2) ([1, 2, 3, 4] : List ℕ)).1
    simpa using h
  · exact (shuffle_fisher_yates (fun _ => (1 : ℚ) / 2) ([42] : List ℕ)).2.1 (by norm_num)
  · exact (shuffle_fisher_yates (fun _ => (1 : ℚ) / 2) ([1] : List ℕ)).2.2.1
      ((1 : ℚ) / 2) 3 (by norm_num) (by norm_num)

section SwapPerm

theorem perm_cons_set (xs : List α) (k : Nat) (h : k < xs.length) (x : α) :
    List.Perm (xs.get ⟨k, h⟩ :: xs.set k x) (x :: xs) := by
  induction xs generalizing k with
  | nil => simp at h
  | cons y ys ih =>
    cases k with
    | zero => exact List.Perm.swap x y ys
    | succ m =>
      have hm : m < ys.length := by simpa using h
      have s1 : List.Perm (ys.get ⟨m, hm⟩ :: y :: ys.set m x)
          (y :: ys.get ⟨m, hm⟩ :: ys.set m x) := List.Perm.swap y (ys.get ⟨m, hm⟩) _
      have s2 : List.Perm (y :: ys.get ⟨m, hm⟩ :: ys.set m x) (y :: x :: ys) :=
        (ih m hm).cons y
      have s3 : List.Perm (y :: x :: ys) (x :: y :: ys) := List.Perm.swap x y ys
      exact (s1.trans s2).trans s3

theorem swap_set_set_perm (l : List α) (i j : Nat) (hi : i < l.length) (hj : j < l.length) :
    List.Perm ((l.set i (l.get ⟨j, hj⟩)).set j (l.get ⟨i, hi⟩)) l := by
  induction l generalizing i j with
  | nil => simp at hi
  | cons x xs ih =>
    cases i with
    | zero =>
      cases j with
      | zero => simp
      | succ m =>
        have hm : m < xs.length := by simpa using hj
        simpa using perm_cons_set xs m hm x
    | succ n =>
      cases j with
      | zero =>
        have hn : n < xs.length := by simpa using hi
        simpa using perm_cons_set xs n hn x
      | succ m =>
        have hn : n < xs.length := by simpa using hi
        have hm : m < xs.length := by simpa using hj
        simpa using (ih n m hn hm).cons x

theorem jsSwap_perm (l : List α) (i j : Nat) : List.Perm (jsSwap l i j) l := by
  unfold jsSwap
  split
  · next a b h1 h2 =>
    obtain ⟨hi, ha⟩ := List.get?_eq_some.1 h1
    obtain ⟨hj, hb⟩ := List.get?_eq_some.1 h2
    subst ha
    subst hb
    exact swap_set_set_perm l i j hi hj
  · exact List.Perm.refl l

theorem shuffleLoop_perm (rs : Nat → ℚ) :
    ∀ (i : Nat) (cards : List α) (k : Nat),
      List.Perm (shuffleLoop rs cards i k).1 cards := by
  intro i
  induction i with
  | zero => intro cards k; exact List.Perm.refl cards
  | succ n ih =>
    intro cards k
    rw [shuffleLoop]
    exact (ih _ (k + 1)).trans (jsSwap_perm cards (n + 1) _)

end SwapPerm

/-- C10: whatever values the random source produces, `shuffle()` preserves
the deck's contents as a multiset — the cards after the call are a
permutation of the cards before it, and in particular `size()` is
unchanged. -/
theorem shuffle_preserves_multiset (rs : Nat → ℚ) (cards : List α) :
    List.Perm (shuffle rs cards).1 cards ∧
    (shuffle rs cards).1.length = cards.length := by
  have hp : List.Perm (shuffle rs cards).1 cards := shuffleLoop_perm rs _ cards 0
  exact ⟨hp, hp.length_eq⟩

/-! ## `[Symbol.iterator]()`

```
*[Symbol.iterator](): IterableIterator<T> {
  for (let i = this.#cards.length; i > 0; i--) {
    yield this.draw();
  }
}
```

The generator captures `i = this.#cards.length` at its first resumption
and then yields `this.draw()` exactly `i` times, decrementing a counter —
it never re-checks the deck.  Between two resumptions the consumer may
mutate the deck; `muts m` below is the net effect of whatever the consumer
does to the cards after the `m`-th yield (with `muts m = id` when it does
nothing).  `iterLoop muts cards i m` returns the list of yielded values
(`none` is a yielded `null`) and the cards when the loop ends. -/
def iterLoop (muts : Nat → List α → List α) : List α → Nat → Nat → List (Option α) × List α
  | cards, 0, _ => ([], cards)
  | cards, i + 1, m =>
      let (v, c₁) := draw cards
      let c₂ := muts m c₁
      let (vs, final) := iterLoop muts c₂ i (m + 1)
      (v :: vs, final)

/-- A full consumption of the iterator: the counter starts at the length
the cards have at the first resumption, and the first yield is yield `1`. -/
def iterRun (muts : Nat → List α → List α) (cards : List α) : List (Option α) × List α :=
  iterLoop muts cards cards.length 1

theorem iterLoop_id_drains (S : List α) :
    ∀ m : Nat, iterLoop (fun _ c => c) S S.length m = (S.reverse.map some, []) := by
  induction S using List.reverseRecOn with
  | nil => intro m; rfl
  | append_singleton S a ih =>
    intro m
    have hlen : (S ++ [a]).length = S.length + 1 := by simp
    rw [hlen, iterLoop, draw_concat]
    simp only [ih (m + 1)]
    simp

/-- C8: with no external mutation during consumption, fully draining the
deck through the iterator yields exactly `size()` values, all non-null, in
top-to-bottom draw order, and leaves the deck empty. -/
theorem iterator_full_drain (S : List α) :
    iterRun (fun _ c => c) S = (S.reverse.map some, []) ∧
    (iterRun (fun _ c => c) S).1.length = size S := by
  have h := iterLoop_id_drains S 1
  refine ⟨h, ?_⟩
  rw [iterRun, h]
  simp [size]

/-- The external mutation used against C9: after the first yield the
consumer drains the deck (e.g. by calling `drawMany(size())`). -/
def drainAfterFirstYield : Nat → List ℕ → List ℕ :=
  fun m c => if m = 1 then [] else c

/-- Counterexample to C9: on the deck `[1, 2]`, draining the deck after
the first yield makes the second resumption `draw()` from an empty deck —
the iterator does not stop on the empty sentinel but yields it
(`[some 2, none]`). -/
theorem iterator_yields_sentinel :
    iterRun drainAfterFirstYield [1, 2] = ([some 2, none], []) ∧
    none ∈ (iterRun drainAfterFirstYield [1, 2]).1 := by
  refine ⟨rfl, ?_⟩
  rw [show iterRun drainAfterFirstYield [1, 2] = ([some 2, none], []) from rfl]
  simp

theorem iterLoop_length (muts : Nat → List α → List α) :
    ∀ (i : Nat) (cards : List α) (m : Nat), (iterLoop muts cards i m).1.length = i := by
  intro i
  induction i with
  | zero => intro cards m; rfl
  | succ n ih =>
    intro cards m
    rw [iterLoop]
    simp only [List.length_cons, ih]

/-- C9 amended: the iterator calls `draw()` exactly once per produced
value, but it does not stop when `draw()` yields the empty sentinel — it
always performs exactly as many yields as the deck had cards at its first
resumption, whatever external mutation happens in between, and when the
deck is externally drained it yields the sentinel (`null`) itself. -/
theorem iterator_fixed_yield_count (muts : Nat → List α → List α) (S : List α) :
    (iterRun muts S).1.length = size S ∧
    (∀ (c : List α) (i m : Nat), iterLoop muts c (i + 1) m =
      ((draw c).1 :: (iterLoop muts (muts m (draw c).2) i (m + 1)).1,
        (iterLoop muts (muts m (draw c).2) i (m + 1)).2)) := by
  exact ⟨iterLoop_length muts S.length S 1, fun c i m => rfl⟩

/-! ## `pull(predicate)` and `pullAll(predicate)`

These two methods are not present in `src/Deck.mts` as given — only the
test file `src/Deck.test.mts` calls them — so they are modelled from the
spec's description below. -/

/-- Modelled from the spec: `pull(predicate)` is missing from
`src/Deck.mts` (only the tests call it).  The spec: it "scans from the top
(most-recently-inserted element first) toward the bottom, and
removes+returns the first element for which `predicate(element)` is
true", and "returns the empty sentinel if no element matches or the deck
is empty", removing at most one element and preserving the relative order
of the rest.  `pullRev` is that scan over the cards listed top-first. -/
def pullRev (p : α → Bool) : List α → Option α × List α
  | [] => (none, [])
  | x :: xs =>
      if p x then (some x, xs)
      else
        let (r, rest) := pullRev p xs
        (r, x :: rest)

/-- Modelled from the spec: the deck stores its cards bottom-first, so the
top-to-bottom scan of `pull` runs over the reversed cards. -/
def pull (cards : List α) (p : α → Bool) : Option α × List α :=
  let (r, rest) := pullRev p cards.reverse
  (r, rest.reverse)

/-- Modelled from the spec: `pullAll(predicate)` is missing from
`src/Deck.mts` (only the tests call it).  The spec: it "removes and
returns every element matching `predicate`, in top-to-bottom scan order
(nearest-to-top first)", while "non-matching elements retain their
original relative order in the deck". -/
def pullAllRev (p : α → Bool) : List α → List α × List α
  | [] => ([], [])
  | x :: xs =>
      let (ms, rest) := pullAllRev p xs
      if p x then (x :: ms, rest) else (ms, x :: rest)

/-- Modelled from the spec: top-to-bottom scan of `pullAll` over the
reversed (top-first) cards. -/
def pullAll (cards : List α) (p : α → Bool) : List α × List α :=
  let (ms, rest) := pullAllRev p cards.reverse
  (ms, rest.reverse)

theorem pullRev_no_match (p : α → Bool) :
    ∀ l : List α, (∀ x ∈ l, p x = false) → pullRev p l = (none, l) := by
  intro l
  induction l with
  | nil => intro _; rfl
  | cons x xs ih =>
    intro hall
    have hx : p x = false := hall x (List.mem_cons_self x xs)
    have hxs := ih fun y hy => hall y (List.mem_cons_of_mem x hy)
    simp [pullRev, hx, hxs]

theorem pullRev_first_match (p : α → Bool) (e : α) (he : p e = true) :
    ∀ B A : List α, (∀ x ∈ B, p x = false) →
      pullRev p (B ++ e :: A) = (some e, B ++ A) := by
  intro B
  induction B with
  | nil => intro A _; simp [pullRev, he]
  | cons x xs ih =>
    intro A hall
    have hx : p x = false := hall x (List.mem_cons_self x xs)
    have hxs := ih A fun y hy => hall y (List.mem_cons_of_mem x hy)
    simp [pullRev, hx, hxs]

/-- C3: `pull(p)` scans from the top toward the bottom: on a deck
`A ++ e :: B` (so `B` is above `e`) where `e` matches and nothing above it
does, it removes and returns `e`, keeping all other elements in order; and
when no element of the deck matches (in particular on the empty deck) it
returns the empty sentinel and leaves the deck unchanged. -/
theorem pull_removes_first_match_from_top (p : α → Bool) :
    (∀ cards : List α, (∀ x ∈ cards, p x = false) → pull cards p = (none, cards)) ∧
    (∀ (A : List α) (e : α) (B : List α), p e = true → (∀ x ∈ B, p x = false) →
      pull (A ++ e :: B) p = (some e, A ++ B)) := by
  constructor
  · intro cards hall
    have h := pullRev_no_match p cards.reverse fun x hx =>
      hall x (List.mem_reverse.1 hx)
    simp [pull, h]
  · intro A e B he hall
    have hsplit : (A ++ e :: B).reverse = B.reverse ++ e :: A.reverse := by
      simp
    have h := pullRev_first_match p e he B.reverse A.reverse fun x hx =>
      hall x (List.mem_reverse.1 hx)
    simp [pull, hsplit, h]

/-- Witness for C3: the spec's own example — `pull` with an is-even
predicate on `[1,2,3,4,5]` returns `4` and leaves `[1,2,3,5]` — plus the
no-match case on the same deck. -/
theorem pull_removes_first_match_from_top_witness :
    pull [1, 2, 3, 4, 5] (fun x => x % 2 == 0) = (some 4, [1, 2, 3, 5]) ∧
    pull [1, 2, 3, 4, 5] (fun x => x > 9) = (none, [1, 2, 3, 4, 5]) := by
  constructor
  · have h := (pull_removes_first_match_from_top (fun x => x % 2 == 0)).2
      [1, 2, 3] 4 [5] (by decide) (by decide)
    simpa using h
  · exact (pull_removes_first_match_from_top (fun x => x > 9)).1
      [1, 2, 3, 4, 5] (by decide)

theorem pullAllRev_eq_filter (p : α → Bool) :
    ∀ l : List α, pullAllRev p l = (l.filter p, l.filter (fun x => !p x)) := by
  intro l
  induction l with
  | nil => rfl
  | cons x xs ih =>
    by_cases hx : p x = true
    · simp [pullAllRev, ih, hx, List.filter_cons]
    · have hx' : p x = false := by simpa using hx
      simp [pullAllRev, ih, hx', List.filter_cons]

/-- C4: `pullAll(p)` removes and returns exactly the matching elements, in
top-to-bottom scan order (nearest-to-top first, i.e. the reverse of their
bottom-first order), and the non-matching elements remain in the deck in
their original relative order. -/
theorem pullAll_removes_all_matches (p : α → Bool) (cards : List α) :
    pullAll cards p = ((cards.filter p).reverse, cards.filter (fun x => !p x)) := by
  simp [pullAll, pullAllRev_eq_filter]

/-! ## The constructor and array aliasing

`constructor(cards: T[] = []) { this.#cards = cards; }` assigns the
caller's array object itself to the private field — JavaScript assignment
of an array copies the reference, not the contents.  To make that
observable we model array objects as entries of a heap and references as
indices into it. -/

/-- A reference to a JavaScript array object. -/
structure ArrayRef where
  idx : Nat
deriving DecidableEq

/-- The heap: contents of every allocated array object, by reference. -/
abbrev Heap (α : Type u) := List (List α)

/-- Dereference an array (an unallocated reference reads as empty). -/
def readRef (h : Heap α) (r : ArrayRef) : List α := (h[r.idx]?).getD []

/-- Overwrite the contents of the array object behind `r`. -/
def writeRef (h : Heap α) (r : ArrayRef) (v : List α) : Heap α := h.set r.idx v

/-- A constructed `Deck` object: its private `#cards` field. -/
structure DeckObj where
  cardsRef : ArrayRef

/-- `constructor(cards: T[] = []) { this.#cards = cards; }` — the field
receives the caller's reference itself; the heap is untouched (no copy is
allocated). -/
def deckNew (h : Heap α) (cards : ArrayRef) : Heap α × DeckObj :=
  (h, ⟨cards⟩)

/-- Modelled from the spec (for comparison with `deckNew`): the
constructor the spec requires, which "stores an independent copy of
`initial`" — it allocates a fresh array with the same contents and stores
a reference to that copy. -/
def deckNewSpec (h : Heap α) (cards : ArrayRef) : Heap α × DeckObj :=
  (h ++ [readRef h cards], ⟨⟨h.length⟩⟩)

/-- `toList()` returns `[...this.#cards]`: the values currently behind the
deck's `#cards` reference. -/
def deckToList (h : Heap α) (d : DeckObj) : List α := readRef h d.cardsRef

/-- External mutation of the caller's original array: `original.push(x)`. -/
def pushRef (h : Heap α) (r : ArrayRef) (x : α) : Heap α :=
  writeRef h r (readRef h r ++ [x])

theorem readRef_writeRef_self (h : Heap α) (r : ArrayRef) (v : List α)
    (hr : r.idx < h.length) : readRef (writeRef h r v) r = v := by
  simp [readRef, writeRef, List.getElem?_set_self hr]

/-- Counterexample to C2: a deck constructed from the one-element array
behind reference `0` on the heap `[[1]]`; pushing `2` onto the original
array afterwards is observable through `toList()`, which changes from
`[1]` to `[1, 2]`. -/
theorem constructor_does_not_copy :
    deckToList ([[1]] : Heap ℕ) (deckNew [[1]] ⟨0⟩).2 = [1] ∧
    deckToList (pushRef ([[1]] : Heap ℕ) ⟨0⟩ 2) (deckNew [[1]] ⟨0⟩).2 = [1, 2] ∧
    ([1, 2] : List ℕ) ≠ [1] := by
  refine ⟨rfl, rfl, by decide⟩

/-- C2 amended: the constructor stores the caller's array by reference,
not as an independent copy, so a later mutation of the original sequence
IS observable through the deck: pushing onto the original array appends to
what `toList()` reports.  The copying constructor the spec describes
(`deckNewSpec`) would hide the same mutation. -/
theorem constructor_aliases_input (h : Heap α) (r : ArrayRef) (x : α)
    (hr : r.idx < h.length) :
    deckToList (pushRef h r x) (deckNew h r).2 =
      deckToList h (deckNew h r).2 ++ [x] ∧
    deckToList (pushRef (deckNewSpec h r).1 r x) (deckNewSpec h r).2 =
      deckToList (deckNewSpec h r).1 (deckNewSpec h r).2 := by
  constructor
  · exact readRef_writeRef_self h r _ hr
  · have hne : r.idx ≠ h.length := by omega
    simp only [deckNewSpec, deckToList, pushRef, writeRef, readRef]
    rw [List.getElem?_set_ne hne]

/-- Witness for the amended C2 on the heap `[[1]]` with reference `0`. -/
theorem constructor_aliases_input_witness :
    deckToList (pushRef ([[1]] : Heap ℕ) ⟨0⟩ 2) (deckNew [[1]] ⟨0⟩).2 =
      deckToList ([[1]] : Heap ℕ) (deckNew [[1]] ⟨0⟩).2 ++ [2] ∧
    deckToList (pushRef (deckNewSpec ([[1]] : Heap ℕ) ⟨0⟩).1 ⟨0⟩ 2)
        (deckNewSpec ([[1]] : Heap ℕ) ⟨0⟩).2 =
      deckToList (deckNewSpec ([[1]] : Heap ℕ) ⟨0⟩).1
        (deckNewSpec ([[1]] : Heap ℕ) ⟨0⟩).2 :=
  constructor_aliases_input [[1]] ⟨0⟩ 2 (by decide)

end Magician
